import Mathlib

/-
  Verification development for the csa-rust repository: a shallow embedding of
  the timetable model (src/structures.rs) and of the profile Connection Scan
  Algorithm (src/algo.rs), together with theorems settling the specification
  claims about them.

  Machine integers of the source are embedded as Nat; the operations of the
  algorithm only compare times and add small constants, so Nat agrees with the
  source's unsigned arithmetic on all inputs where no wrap-around occurs.  The
  one place where the width of the representation itself is at stake
  (the u16 sentinel of Profile::default against the u32 day offsets of
  Timetable::connections) is modelled with the explicit bounds 2^16 and 2^32.
-/

namespace CSA

/-- Location type of a stop, from the gtfs_structures crate: a physical stop
point or an abstract stop area. -/
inductive LocationType where
  | StopPoint : LocationType
  | StopArea : LocationType
deriving DecidableEq, Repr

/-- A stop of the network, from src/structures.rs.  The chrono-typed and
display-only data plays no role in the algorithm. -/
structure Stop where
  id : String
  name : String
  parent_station : Option String
  location_type : LocationType
deriving DecidableEq, Repr

/-- One elementary ride, from src/structures.rs.  Stops and trips are dense
indices; times are day-offset seconds (see Timetable.connections in the
source). -/
structure Connection where
  trip : Nat
  dep_time : Nat
  arr_time : Nat
  dep_stop : Nat
  arr_stop : Nat
deriving DecidableEq, Repr

/-- A directed walking edge into a stop, from src/structures.rs. -/
structure Footpath where
  «from» : Nat
  duration : Nat
deriving DecidableEq, Repr

/-- An opaque vehicle run, from src/structures.rs (pub struct Trip {}). -/
structure Trip where
deriving DecidableEq, Repr

/-- The immutable timetable, from src/structures.rs.  start_date (a chrono
NaiveDate) is embedded as a day number and transform_duration (milliseconds)
as an integer; neither is read by the algorithm. -/
structure Timetable where
  start_date : Int
  transform_duration : Int
  stops : List Stop
  connections : List Connection
  footpaths : List (List Footpath)
  trips : List Trip
deriving DecidableEq, Repr

/-- A profile of the solver, from src/algo.rs: departing at dep_time reaches
the destination at arr_time, first taking connection out_connection (none
marks the destination itself). -/
structure Profile where
  out_connection : Option Nat
  dep_time : Nat
  arr_time : Nat
deriving DecidableEq, Repr

/-- Profile::default from src/algo.rs: out_connection None,
dep_time u16::max_value() = 65535, arr_time 0. -/
def Profile.default : Profile :=
  { out_connection := none, dep_time := 65535, arr_time := 0 }

/-- Profile::dominates from src/algo.rs. -/
def Profile.dominates (self other : Profile) : Bool :=
  decide (self.arr_time ≤ other.arr_time) && decide (other.dep_time ≤ self.dep_time)

/-- Profile::is_non_dominated from src/algo.rs. -/
def Profile.is_non_dominated (self : Profile) (other_opt : Option Profile) : Bool :=
  match other_opt with
  | some other => decide (self.arr_time ≤ other.arr_time)
  | none => true

/-- Iterator::rposition of Rust, specialised to lists: the index (from the
front) of the last element satisfying the predicate, none if no element
does. -/
def rposition (pred : α → Bool) : List α → Option Nat
  | [] => none
  | x :: xs =>
    match rposition pred xs with
    | some p => some (p + 1)
    | none => if pred x then some 0 else none

/-- arrival_time_with_stop_change from src/algo.rs: the rightmost profile
departing strictly after the connection's arrival plus the transfer time of 5
gives the continuation; the sentinel (out_connection none) means the traveler
alights at the destination at the connection's own arrival time. -/
def arrival_time_with_stop_change (profiles : List Profile) (c : Connection) :
    Option Nat :=
  let transfer_duration := 5
  (rposition (fun p => decide (c.arr_time + transfer_duration < p.dep_time)) profiles).map
    (fun pos =>
      let p := profiles.getD pos Profile.default
      if p.out_connection.isSome then p.arr_time else c.arr_time)

/-- The pivot located by incorporate in src/algo.rs: the rightmost entry whose
dep_time is at least the candidate's dep_time. -/
def pivotIndex (self : List Profile) (candidate : Profile) : Option Nat :=
  rposition (fun p => decide (candidate.dep_time ≤ p.dep_time)) self

/-- Vec::incorporate from src/algo.rs, as a function from the old list to the
returned flag and the new list.  The source drains the entries after the
pivot, keeps (collects and re-appends) those the candidate dominates, pushes
the candidate when is_non_dominated against the remaining last element, and
appends the kept drained entries. -/
def incorporate (self : List Profile) (candidate : Profile) :
    Bool × List Profile :=
  match pivotIndex self candidate with
  | none =>
    let incorporated := candidate.is_non_dominated self.getLast?
    (incorporated, if incorporated then self ++ [candidate] else self)
  | some position =>
    let kept := self.take (position + 1)
    let earlier_profiles :=
      (self.drop (position + 1)).filter (fun p => candidate.dominates p)
    let incorporated := candidate.is_non_dominated kept.getLast?
    (incorporated,
      (if incorporated then kept ++ [candidate] else kept) ++ earlier_profiles)

/-- Minimum of two optional times, ignoring none; used to embed
[t1, t2, t3].iter().filter_map(|t| *t).min() from src/algo.rs. -/
def minOpt (a b : Option Nat) : Option Nat :=
  match a, b with
  | none, b => b
  | some x, none => some x
  | some x, some y => some (min x y)

/-- The initialization of compute (src/algo.rs lines 82-85): the trip table
all none, one empty profile list per stop, the sentinel pushed at the
destination, and final_footpaths bound to the destination's footpath list.
Out-of-range indexing (a Rust panic) is none. -/
def computeInit (timetable : Timetable) (destination : Nat) :
    Option (List (Option Nat) × List (List Profile) × List Footpath) :=
  let arr_time_with_trip : List (Option Nat) := timetable.trips.map (fun _ => none)
  let profiles : List (List Profile) := timetable.stops.map (fun _ => [])
  match profiles[destination]? with
  | none => none
  | some at_dest =>
    match timetable.footpaths[destination]? with
    | none => none
    | some final_footpaths =>
      some (arr_time_with_trip,
            profiles.set destination (at_dest ++ [Profile.default]),
            final_footpaths)

/-- The body of the footpath propagation loop of compute (src/algo.rs lines
108-117), one footpath at a time: incorporate the shifted candidate at the
footpath's origin stop. -/
def propagate_go (conn_index : Nat) (t : Nat) (c : Connection) :
    List Footpath → List (List Profile) → Option (List (List Profile))
  | [], profiles => some profiles
  | footpath :: rest, profiles =>
    match profiles[footpath.«from»]? with
    | none => none
    | some l =>
      propagate_go conn_index t c rest
        (profiles.set footpath.«from»
          (incorporate l
            { out_connection := some conn_index,
              dep_time := c.dep_time - footpath.duration,
              arr_time := t }).2)

/-- The footpath propagation of compute (src/algo.rs lines 108-117): for every
footpath into the departure stop whose duration is below the departure time,
incorporate the shifted candidate at the footpath's origin stop. -/
def propagate (conn_index : Nat) (t : Nat) (c : Connection)
    (fps : List Footpath) (profiles : List (List Profile)) :
    Option (List (List Profile)) :=
  propagate_go conn_index t c
    (fps.filter (fun p => decide (p.duration < c.dep_time))) profiles

/-- One iteration of the main sweep of compute (src/algo.rs lines 87-122) on
the state (arr_time_with_trip, profiles), for the connection c at index
conn_index.  Rust index panics are none. -/
def computeStep (timetable : Timetable) (final_footpaths : List Footpath)
    (st : List (Option Nat) × List (List Profile)) (ic : Nat × Connection) :
    Option (List (Option Nat) × List (List Profile)) :=
  let arr_time_with_trip := st.1
  let profiles := st.2
  let conn_index := ic.1
  let c := ic.2
  let t1 := (final_footpaths.find? (fun f => f.«from» == c.arr_stop)).map
    (fun f => c.arr_time + f.duration)
  match arr_time_with_trip[c.trip]? with
  | none => none
  | some t2 =>
    match profiles[c.arr_stop]? with
    | none => none
    | some arr_profiles =>
      let t3 := arrival_time_with_stop_change arr_profiles c
      match minOpt t1 (minOpt t2 t3) with
      | none => some (arr_time_with_trip, profiles)
      | some t =>
        let candidate : Profile :=
          { out_connection := some conn_index, dep_time := c.dep_time, arr_time := t }
        match profiles[c.dep_stop]? with
        | none => none
        | some dep_profiles =>
          let res := incorporate dep_profiles candidate
          let profiles1 := profiles.set c.dep_stop res.2
          match timetable.footpaths[c.dep_stop]? with
          | none => none
          | some dep_fps =>
            match (if res.1 then propagate conn_index t c dep_fps profiles1
                   else some profiles1) with
            | none => none
            | some profiles2 =>
              some (arr_time_with_trip.set c.trip (some t), profiles2)

/-- The main sweep of compute (src/algo.rs lines 87-122): iterate over the
enumerated connection array in its stored order, threading the state. -/
def sweep (timetable : Timetable) (final_footpaths : List Footpath) :
    List (Nat × Connection) → List (Option Nat) × List (List Profile) →
    Option (List (Option Nat) × List (List Profile))
  | [], st => some st
  | ic :: rest, st =>
    match computeStep timetable final_footpaths st ic with
    | none => none
    | some st' => sweep timetable final_footpaths rest st'

/-- compute from src/algo.rs: initialize, then sweep the connection array (in
its stored order) threading the state; returns the per-stop profile lists, or
none when the source would panic on an out-of-range index. -/
def compute (timetable : Timetable) (destination : Nat) :
    Option (List (List Profile)) :=
  match computeInit timetable destination with
  | none => none
  | some (arr0, profiles0, final_footpaths) =>
    (sweep timetable final_footpaths timetable.connections.enum
      (arr0, profiles0)).map (fun st => st.2)

/-- A call made to the TimetableBuilder of src/structures.rs: either trip()
(open a new trip) or s(stop, time) (a stop-time entry).  The time argument
stands for the value of gtfs_structures::parse_time on the time literal; an
unparseable literal panics before the builder state changes, so command
sequences carry parsed times. -/
inductive Cmd where
  | trip : Cmd
  | s : String → Nat → Cmd
deriving DecidableEq, Repr

/-- TimetableBuilder from src/structures.rs.  The HashMap stop_map is embedded
as an association list in insertion order; lookups go through the keys, so
only the iteration order of the finished map (see build) depends on the
HashMap behaviour. -/
structure TimetableBuilder where
  stop_map : List (String × Nat)
  trips : List Trip
  last_stop : Option (Nat × Nat)
  connections : List Connection
deriving DecidableEq, Repr

/-- Timetable::builder from src/structures.rs. -/
def Timetable.builder : TimetableBuilder :=
  { stop_map := [], trips := [], last_stop := none, connections := [] }

/-- TimetableBuilder::stop from src/structures.rs: the dense index of the
identifier, inserting the next fresh index on first sight. -/
def TimetableBuilder.stop (b : TimetableBuilder) (stop_id : String) :
    Nat × TimetableBuilder :=
  let index := b.stop_map.length
  match b.stop_map.lookup stop_id with
  | some i => (i, b)
  | none => (index, { b with stop_map := b.stop_map ++ [(stop_id, index)] })

/-- TimetableBuilder::trip from src/structures.rs. -/
def TimetableBuilder.trip (b : TimetableBuilder) : TimetableBuilder :=
  { b with last_stop := none, trips := b.trips ++ [Trip.mk] }

/-- TimetableBuilder::s from src/structures.rs; none is the panic on adding a
stop entry while no trip is open. -/
def TimetableBuilder.s (b : TimetableBuilder) (stop : String) (time : Nat) :
    Option TimetableBuilder :=
  let trip_id := b.trips.length
  if trip_id = 0 then none
  else
    let res := b.stop stop
    let stop_index := res.1
    let b1 := res.2
    let b2 :=
      match b1.last_stop with
      | some prev =>
        { b1 with connections := b1.connections ++
            [({ trip := trip_id - 1, dep_time := prev.2, arr_time := time,
                dep_stop := prev.1, arr_stop := stop_index } : Connection)] }
      | none => b1
    some { b2 with last_stop := some (stop_index, time) }

/-- Run a sequence of builder calls from a given state; none as soon as one
call panics. -/
def runBuilderFrom (b : TimetableBuilder) : List Cmd → Option TimetableBuilder
  | [] => some b
  | Cmd.trip :: rest => runBuilderFrom b.trip rest
  | Cmd.s id t :: rest =>
    match b.s id t with
    | none => none
    | some b1 => runBuilderFrom b1 rest

/-- Run a sequence of builder calls from the fresh builder. -/
def runBuilder (cmds : List Cmd) : Option TimetableBuilder :=
  runBuilderFrom Timetable.builder cmds

/-- TimetableBuilder::build from src/structures.rs: connections sorted by
descending dep_time with Rust's stable sort_by, one Stop record and one empty
footpath list per entry of stop_map.  The source iterates the HashMap, whose
order is unspecified; the parameter order makes that iteration order explicit
(theorems quantify over permutations of the keys).  The chrono start_date is
inert and embedded as 0. -/
def TimetableBuilder.build (b : TimetableBuilder) (order : List String) :
    Timetable :=
  { start_date := 0, transform_duration := 0,
    trips := b.trips,
    connections := b.connections.mergeSort
      (fun a c => decide (c.dep_time ≤ a.dep_time)),
    stops := order.map (fun id =>
      { id := id, name := id, parent_station := none,
        location_type := LocationType.StopPoint }),
    footpaths := order.map (fun _ => ([] : List Footpath)) }

/-- Modelled from the spec (section 4.4, initialization step 3), for claim C3:
final_footpaths of a stop s as the minimum duration over the destination
footpaths whose origin is s.  The code has no such definition; it keeps the
raw footpath list of the destination and takes the first match. -/
def spec_min_final_footpath (fps : List Footpath) (s : Nat) : Option Nat :=
  fps.foldl (fun acc f =>
    if f.«from» = s then
      some (match acc with
            | none => f.duration
            | some d => min d f.duration)
    else acc) none

/-- Well-formedness of a timetable: every index stored in it is in range and
there is one footpath list per stop.  This is the contract the solver's
unchecked indexing relies on (spec sections 6 and 7). -/
def Timetable.wf (t : Timetable) : Prop :=
  t.footpaths.length = t.stops.length ∧
  (∀ c ∈ t.connections,
    c.dep_stop < t.stops.length ∧ c.arr_stop < t.stops.length ∧
    c.trip < t.trips.length) ∧
  (∀ fl ∈ t.footpaths, ∀ f ∈ fl, f.«from» < t.stops.length)

/-- Static reachability of the destination, for claim C6: the least relation
containing the destination and closed under walking a footpath into a
reachable stop and under boarding a connection whose trip also contains a
connection arriving at a reachable stop (riding then possibly staying
seated).  A stop outside this relation cannot reach the destination by any
journey. -/
inductive Reachable (t : Timetable) (destination : Nat) : Nat → Prop where
  | dest : Reachable t destination destination
  | footpath (s : Nat) (fl : List Footpath) (f : Footpath) :
      Reachable t destination s → t.footpaths[s]? = some fl → f ∈ fl →
      Reachable t destination f.«from»
  | ride (c c' : Connection) :
      c ∈ t.connections → c' ∈ t.connections → c.trip = c'.trip →
      Reachable t destination c'.arr_stop → Reachable t destination c.dep_stop

/-- Guard on builder call sequences, for the amended claim C7: within each
trip, consecutive stop entries have non-decreasing times and distinct stop
identifiers.  The second argument tracks the previous entry of the current
trip. -/
def cmdsWF : List Cmd → Option (String × Nat) → Bool
  | [], _ => true
  | Cmd.trip :: rest, _ => cmdsWF rest none
  | Cmd.s id t :: rest, last =>
    match last with
    | none => cmdsWF rest (some (id, t))
    | some (pid, pt) =>
      decide (pt ≤ t) && decide (pid ≠ id) && cmdsWF rest (some (id, t))

/-- A list of connections is a chain when each one arrives where and when the
next departs (a single vehicle's itinerary), for claim C7. -/
def chainOK : List Connection → Bool
  | [] => true
  | [_] => true
  | c1 :: c2 :: rest =>
    (c1.arr_stop == c2.dep_stop) && (c1.arr_time == c2.dep_time) &&
      chainOK (c2 :: rest)

/-- The distinct stop identifiers of a command sequence in first-seen order,
for claim C8. -/
def firstSeen : List Cmd → List String
  | [] => []
  | Cmd.trip :: rest => firstSeen rest
  | Cmd.s id _ :: rest => id :: (firstSeen rest).filter (fun x => x != id)

/-- Invariant carried through a run of the builder, relating the builder
state to the previous stop entry (identifier and time) of the current trip:
the stop map's values are the dense indices 0, 1, ... in insertion order;
every connection is time-ordered, moves between distinct stops and names an
open trip; the connections of each trip chain; trips not yet opened have no
connections; and the tracked last entry agrees with the builder's last_stop
and with the end of the current trip's chain. -/
def BuilderInv (b : TimetableBuilder) (last : Option (String × Nat)) : Prop :=
  b.stop_map.map Prod.snd = List.range b.stop_map.length ∧
  (∀ c ∈ b.connections,
    c.dep_time ≤ c.arr_time ∧ c.dep_stop ≠ c.arr_stop ∧
    c.trip + 1 ≤ b.trips.length) ∧
  (∀ tr : Nat, chainOK (b.connections.filter (fun c => c.trip == tr)) = true) ∧
  (∀ tr : Nat, b.trips.length ≤ tr →
    b.connections.filter (fun c => c.trip == tr) = []) ∧
  (match b.last_stop, last with
   | none, none =>
     b.connections.filter (fun c => c.trip == b.trips.length - 1) = []
   | some it, some idt =>
     it.2 = idt.2 ∧ b.stop_map.lookup idt.1 = some it.1 ∧
     (∀ cl : Connection,
       (b.connections.filter (fun c => c.trip == b.trips.length - 1)).getLast?
         = some cl →
       cl.arr_stop = it.1 ∧ cl.arr_time = it.2)
   | _, _ => False)

/-- The builder state after trip(), s("a", 10), s("a", 5): one trip, one
stop, and a connection from stop 0 at time 10 back to stop 0 at time 5. -/
def bBad7 : TimetableBuilder :=
  { stop_map := [("a", 0)], trips := [Trip.mk], last_stop := some (0, 5),
    connections := [⟨0, 10, 5, 0, 0⟩] }

/-- The builder state after two well-formed trips a(10) b(20) and
b(30) c(40). -/
def bW7 : TimetableBuilder :=
  { stop_map := [("a", 0), ("b", 1), ("c", 2)], trips := [Trip.mk, Trip.mk],
    last_stop := some (2, 40),
    connections := [⟨0, 10, 20, 0, 1⟩, ⟨1, 30, 40, 1, 2⟩] }

/-- The builder state after trip(), s("a", 10), s("b", 20). -/
def b8 : TimetableBuilder :=
  { stop_map := [("a", 0), ("b", 1)], trips := [Trip.mk],
    last_stop := some (1, 20), connections := [⟨0, 10, 20, 0, 1⟩] }

/-- Invariant carried through the sweep of compute, for claim C6: the state
tables keep their lengths; a stop with a non-empty profile list can reach the
destination; a trip with a recorded arrival has a connection arriving at a
stop that can reach the destination. -/
def StateInv (t : Timetable) (destination : Nat)
    (st : List (Option Nat) × List (List Profile)) : Prop :=
  st.1.length = t.trips.length ∧
  st.2.length = t.stops.length ∧
  (∀ (s : Nat) (l : List Profile), st.2[s]? = some l → l ≠ [] →
    Reachable t destination s) ∧
  (∀ (tr v : Nat), st.1[tr]? = some (some v) →
    ∃ c' ∈ t.connections, c'.trip = tr ∧ Reachable t destination c'.arr_stop)

/-- A one-stop timetable with no connections. -/
def ttOne : Timetable :=
  { start_date := 0, transform_duration := 0,
    stops := [⟨"a", "a", none, LocationType.StopPoint⟩],
    connections := [], footpaths := [[]], trips := [] }

/-- The timetable of the repository's no_route test: two disconnected rides
a(10) b(20) and c(30) d(40). -/
def ttNoRoute : Timetable :=
  { start_date := 0, transform_duration := 0,
    stops := [⟨"a", "a", none, LocationType.StopPoint⟩,
              ⟨"b", "b", none, LocationType.StopPoint⟩,
              ⟨"c", "c", none, LocationType.StopPoint⟩,
              ⟨"d", "d", none, LocationType.StopPoint⟩],
    connections := [⟨1, 30, 40, 2, 3⟩, ⟨0, 10, 20, 0, 1⟩],
    footpaths := [[], [], [], []],
    trips := [Trip.mk, Trip.mk] }

/-- A stop record fixture. -/
def mkStop (s : String) : Stop :=
  { id := s, name := s, parent_station := none,
    location_type := LocationType.StopPoint }

/-- Fixture for claim C2: two distinct trips with identical single rides from
stop 0 to stop 1 at times 10 to 20 (connections already in descending, here
equal, dep_time order as the Timetable contract requires). -/
def ttDup : Timetable :=
  { start_date := 0, transform_duration := 0,
    stops := [mkStop "a", mkStop "b"],
    connections := [⟨0, 10, 20, 0, 1⟩, ⟨1, 10, 20, 0, 1⟩],
    footpaths := [[], []],
    trips := [Trip.mk, Trip.mk] }

/-- Fixture for claim C3: one ride from stop 0 to stop 1, and two footpaths
into the destination stop 2 from the same origin 1, the longer one first. -/
def ttC3 : Timetable :=
  { start_date := 0, transform_duration := 0,
    stops := [mkStop "a", mkStop "b", mkStop "c"],
    connections := [⟨0, 10, 20, 0, 1⟩],
    footpaths := [[], [], [⟨1, 7⟩, ⟨1, 3⟩]],
    trips := [Trip.mk] }

/-- Connection dep_time as assembled by Timetable::connections in
src/structures.rs (line 202): the within-day departure time plus the day
offset day * 24 * 60 * 60, in u32 arithmetic. -/
def connection_dep_time (dep_time : Nat) (day : Nat) : Nat :=
  (dep_time + day * 24 * 60 * 60) % 2 ^ 32

/-- Claim C1: incorporate locates the rightmost entry with dep_time at least
the candidate's, and on acceptance removes exactly the later entries the
candidate dominates (arr_time at least the candidate's) while keeping the
rest.  The code does the opposite: on the frontier (20,30),(10,20),(0,10)
with candidate (11,20) it KEEPS the dominated entry (10,20) and REMOVES the
non-dominated entry (0,10), because the drain filter of src/algo.rs line 65
collects the entries the candidate dominates instead of discarding them.  The
test comment of the repository (a dominating profile should remove the
existing one) states the intent the claim describes; hence a code bug. -/
theorem incorporate_removal_inverted :
    incorporate [⟨none, 20, 30⟩, ⟨none, 10, 20⟩, ⟨none, 0, 10⟩]
        ⟨none, 11, 20⟩ =
      (true, [⟨none, 20, 30⟩, ⟨none, 11, 20⟩, ⟨none, 10, 20⟩]) ∧
    Profile.dominates ⟨none, 11, 20⟩ ⟨none, 10, 20⟩ = true ∧
    Profile.dominates ⟨none, 11, 20⟩ ⟨none, 0, 10⟩ = false := by
  decide

/-- Claim C2: every per-stop profile list produced by compute is strictly
ordered and free of dominated or duplicated entries.  The code violates this:
on a timetable with two identical trips, compute yields at stop 0 two entries
sharing both coordinates (each dominating the other), because
is_non_dominated of src/algo.rs line 31 accepts on equality.  A code bug: the
specification's own invariant section and the Pareto-frontier purpose of the
list forbid this state. -/
theorem compute_duplicate_profiles :
    compute ttDup 1 =
      some [[⟨some 0, 10, 20⟩, ⟨some 1, 10, 20⟩], [⟨none, 65535, 0⟩]] ∧
    (Profile.dep_time ⟨some 0, 10, 20⟩ = Profile.dep_time ⟨some 1, 10, 20⟩ ∧
     Profile.arr_time ⟨some 0, 10, 20⟩ = Profile.arr_time ⟨some 1, 10, 20⟩) ∧
    Profile.dominates ⟨some 0, 10, 20⟩ ⟨some 1, 10, 20⟩ = true := by
  decide

/-- Claim C4: a candidate that does not strictly improve on the pivot's
arr_time is rejected with the list unchanged; in particular incorporating an
already present profile returns false and changes nothing.  The code violates
both parts at once: incorporating the already present (10,20) into the
frontier (20,30),(10,20),(0,10) returns TRUE and changes the list to
(20,30),(10,20),(10,20) (a duplicate is pushed and the tail entry (0,10) is
dropped by the inverted drain filter).  is_non_dominated uses a non-strict
comparison although the code's own dominates predicate makes an
equal-coordinate reference dominate the candidate; hence a code bug. -/
theorem incorporate_not_idempotent :
    ((⟨none, 10, 20⟩ : Profile) ∈
      ([⟨none, 20, 30⟩, ⟨none, 10, 20⟩, ⟨none, 0, 10⟩] : List Profile)) ∧
    incorporate [⟨none, 20, 30⟩, ⟨none, 10, 20⟩, ⟨none, 0, 10⟩]
        ⟨none, 10, 20⟩ =
      (true, [⟨none, 20, 30⟩, ⟨none, 10, 20⟩, ⟨none, 10, 20⟩]) ∧
    Profile.dominates ⟨none, 10, 20⟩ ⟨none, 10, 20⟩ = true ∧
    Profile.is_non_dominated ⟨none, 10, 20⟩ (some ⟨none, 10, 20⟩) = true := by
  decide

/-- Claim C9: the sentinel dep_time must exceed every real connection
departure and the time width must hold horizon days of seconds.  The code
violates this: Profile::default uses u16::max_value() = 65535 = 2^16 - 1,
while Timetable::connections builds u32 day-offset times; a connection
departing at second 0 of day 1 already has dep_time 86400 above the
sentinel, and 2^16 cannot hold even one day of seconds.  A code bug (the
Profile type is also narrower than the Connection type it is compared
with). -/
theorem sentinel_not_above_day_offsets :
    Profile.default.dep_time = 2 ^ 16 - 1 ∧
    connection_dep_time 0 1 = 86400 ∧
    Profile.default.dep_time < connection_dep_time 0 1 ∧
    2 ^ 16 - 1 < 1 * (24 * 60 * 60) := by
  decide

/-- rposition finds nothing exactly when no element satisfies the
predicate. -/
theorem rposition_eq_none_iff (pred : α → Bool) (l : List α) :
    rposition pred l = none ↔ ∀ x ∈ l, pred x = false := by
  induction l with
  | nil => simp [rposition]
  | cons x xs ih =>
    cases h : rposition pred xs with
    | some p =>
      simp only [rposition, h]
      constructor
      · intro hc; cases hc
      · intro hall
        have hn : rposition pred xs = none :=
          ih.mpr (fun y hy => hall y (List.mem_cons_of_mem _ hy))
        rw [h] at hn; cases hn
    | none =>
      simp only [rposition, h]
      by_cases hx : pred x = true
      · simp only [hx, if_true]
        constructor
        · intro hc; cases hc
        · intro hall
          have := hall x (List.mem_cons_self x xs)
          rw [hx] at this; cases this
      · simp only [Bool.not_eq_true] at hx
        simp only [hx, Bool.false_eq_true, if_false, true_iff]
        intro y hy
        rcases List.mem_cons.mp hy with h1 | h2
        · rw [h1]; exact hx
        · exact (ih.mp h) y h2

/-- An index found by rposition is in range. -/
theorem rposition_some_lt (pred : α → Bool) (l : List α) (p : Nat)
    (h : rposition pred l = some p) : p < l.length := by
  induction l generalizing p with
  | nil => cases h
  | cons x xs ih =>
    cases h' : rposition pred xs with
    | some q =>
      rw [rposition, h'] at h
      cases h
      simpa using Nat.succ_lt_succ (ih q h')
    | none =>
      rw [rposition, h'] at h
      by_cases hx : pred x = true
      · rw [hx] at h; simp at h; subst h; simp
      · simp only [Bool.not_eq_true] at hx; rw [hx] at h; simp at h

/-- The element at an index found by rposition satisfies the predicate. -/
theorem rposition_some_pred (pred : α → Bool) (l : List α) (p : Nat)
    (h : rposition pred l = some p) :
    ∃ x, l[p]? = some x ∧ pred x = true := by
  induction l generalizing p with
  | nil => cases h
  | cons x xs ih =>
    cases h' : rposition pred xs with
    | some q =>
      rw [rposition, h'] at h
      cases h
      rcases ih q h' with ⟨y, hy, hp⟩
      exact ⟨y, by simpa using hy, hp⟩
    | none =>
      rw [rposition, h'] at h
      by_cases hx : pred x = true
      · rw [hx] at h; simp at h; subst h
        exact ⟨x, by simp, hx⟩
      · simp only [Bool.not_eq_true] at hx; rw [hx] at h; simp at h

/-- Every element after the index found by rposition fails the predicate:
the found index is the rightmost one. -/
theorem rposition_some_after (pred : α → Bool) (l : List α) (p : Nat)
    (h : rposition pred l = some p) :
    ∀ j y, p < j → l[j]? = some y → pred y = false := by
  induction l generalizing p with
  | nil => intro j y _ hy; cases hy
  | cons x xs ih =>
    intro j y hpj hy
    cases h' : rposition pred xs with
    | some q =>
      rw [rposition, h'] at h
      cases h
      cases j with
      | zero => omega
      | succ j' =>
        rw [List.getElem?_cons_succ] at hy
        exact ih q h' j' y (by omega) hy
    | none =>
      rw [rposition, h'] at h
      by_cases hx : pred x = true
      · rw [hx] at h; simp at h; subst h
        cases j with
        | zero => omega
        | succ j' =>
          rw [List.getElem?_cons_succ] at hy
          exact (rposition_eq_none_iff pred xs).mp h' y (List.getElem?_mem hy)
      · simp only [Bool.not_eq_true] at hx; rw [hx] at h; simp at h

/-- rposition finds an index no smaller than that of any element satisfying
the predicate. -/
theorem rposition_ge_of_pred (pred : α → Bool) (l : List α) (i : Nat) (x : α)
    (hx : l[i]? = some x) (hp : pred x = true) :
    ∃ p, rposition pred l = some p ∧ i ≤ p := by
  induction l generalizing i with
  | nil => cases hx
  | cons a xs ih =>
    cases i with
    | zero =>
      rw [List.getElem?_cons_zero] at hx
      cases hx
      cases h' : rposition pred xs with
      | some q => exact ⟨q + 1, by rw [rposition, h'], by omega⟩
      | none => exact ⟨0, by rw [rposition, h', hp]; simp, Nat.le_refl 0⟩
    | succ i' =>
      rw [List.getElem?_cons_succ] at hx
      rcases ih i' hx with ⟨p, hp', hip⟩
      exact ⟨p + 1, by rw [rposition, hp'], by omega⟩

/-- An index whose element satisfies the predicate while everything to its
right fails it is the one rposition returns. -/
theorem rposition_eq_some_of (pred : α → Bool) (l : List α) (i : Nat) (x : α)
    (hx : l[i]? = some x) (hp : pred x = true)
    (hafter : ∀ j y, i < j → l[j]? = some y → pred y = false) :
    rposition pred l = some i := by
  rcases rposition_ge_of_pred pred l i x hx hp with ⟨p, hsome, hip⟩
  rcases rposition_some_pred pred l p hsome with ⟨y, hy, hpy⟩
  rcases Nat.lt_or_ge i p with hlt | hge
  · have := hafter p y hlt hy
    rw [hpy] at this; cases this
  · have : p = i := by omega
    rw [this] at hsome; exact hsome

/-- Claim C5: arrival_time_with_stop_change returns none exactly when no
profile departs strictly after the connection's arrival time plus the
transfer time 5; otherwise, for the rightmost profile departing strictly
after that bound, it returns that profile's arr_time when its out_connection
is set, and the connection's own arr_time when the profile is the destination
sentinel (out_connection absent).  Confirmed as stated. -/
theorem arrival_time_with_stop_change_rightmost (l : List Profile)
    (c : Connection) :
    (arrival_time_with_stop_change l c = none ↔
      ∀ p ∈ l, p.dep_time ≤ c.arr_time + 5) ∧
    (∀ (i : Nat) (pi : Profile), l[i]? = some pi →
      c.arr_time + 5 < pi.dep_time →
      (∀ (j : Nat) (pj : Profile), i < j → l[j]? = some pj →
        pj.dep_time ≤ c.arr_time + 5) →
      arrival_time_with_stop_change l c =
        some (if pi.out_connection.isSome then pi.arr_time else c.arr_time)) := by
  constructor
  · unfold arrival_time_with_stop_change
    simp only [Option.map_eq_none']
    rw [rposition_eq_none_iff]
    constructor
    · intro h p hp
      have := h p hp
      simp at this
      omega
    · intro h p hp
      have := h p hp
      simp
      omega
  · intro i pi hi hdep hafter
    have hr : rposition (fun p => decide (c.arr_time + 5 < p.dep_time)) l
        = some i := by
      apply rposition_eq_some_of _ l i pi hi
      · simpa using hdep
      · intro j y hj hy
        simpa using hafter j y hj hy
    simp only [arrival_time_with_stop_change]
    rw [hr]
    simp only [Option.map_some']
    have hgd : l.getD i Profile.default = pi := by
      rw [List.getD_eq_getElem?_getD, hi]
      rfl
    rw [hgd]

/-- Witness for claim C5: on the single profile (out_connection 7, dep 100,
arr 50) and a connection arriving at 10, the rightmost compatible profile is
that profile and the returned value is its arr_time 50. -/
theorem arrival_time_with_stop_change_rightmost_witness :
    arrival_time_with_stop_change
      [⟨some 7, 100, 50⟩] ⟨0, 0, 10, 0, 0⟩ = some 50 := by
  have h := (arrival_time_with_stop_change_rightmost
      [⟨some 7, 100, 50⟩] ⟨0, 0, 10, 0, 0⟩).2
    0 ⟨some 7, 100, 50⟩ rfl (by decide)
    (by intro j pj hj hpj
        cases j with
        | zero => omega
        | succ n => simp at hpj)
  simpa using h

/-- Claim C10: incorporate never removes, reorders or modifies an entry whose
dep_time is at least the candidate's: the prefix of the list up to and
including the pivot is returned unchanged (so only entries strictly after the
pivot can be removed), whether or not the candidate is accepted; and every
entry departing no earlier than the candidate keeps its position.
Confirmed. -/
theorem incorporate_keeps_entries_before_pivot (l : List Profile)
    (cand : Profile) :
    (∀ p : Nat, pivotIndex l cand = some p →
      (incorporate l cand).2.take (p + 1) = l.take (p + 1)) ∧
    (∀ (i : Nat) (x : Profile), l[i]? = some x →
      cand.dep_time ≤ x.dep_time →
      (incorporate l cand).2[i]? = some x) := by
  have htake : ∀ p : Nat, pivotIndex l cand = some p →
      (incorporate l cand).2.take (p + 1) = l.take (p + 1) := by
    intro p hp
    have hlt : p < l.length := rposition_some_lt _ l p hp
    have hlen : (l.take (p + 1)).length = p + 1 := by
      rw [List.length_take]; omega
    unfold incorporate
    rw [hp]
    simp only []
    by_cases hinc :
        (cand.is_non_dominated (l.take (p + 1)).getLast?) = true
    · rw [if_pos hinc, List.append_assoc]
      exact List.take_left' hlen
    · rw [if_neg hinc]
      exact List.take_left' hlen
  refine ⟨htake, ?_⟩
  intro i x hx hdep
  cases hpiv : pivotIndex l cand with
  | none =>
    have hall := (rposition_eq_none_iff _ l).mp hpiv x (List.getElem?_mem hx)
    simp at hall
    omega
  | some p =>
    rcases rposition_ge_of_pred (fun q => decide (cand.dep_time ≤ q.dep_time))
        l i x hx (by simpa using hdep) with ⟨p', hp', hip⟩
    have hpp : p' = p := by
      have hpi : pivotIndex l cand = some p' := hp'
      rw [hpi] at hpiv
      exact (Option.some.inj hpiv)
    subst hpp
    have ht := htake p' hpiv
    have h1 : ((incorporate l cand).2.take (p' + 1))[i]? =
        (incorporate l cand).2[i]? := by
      rw [List.getElem?_take, if_pos (by omega)]
    rw [← h1, ht, List.getElem?_take, if_pos (by omega), hx]

/-- Witness for claim C10: incorporating (dep 15, arr 25) into the frontier
(20,30),(10,20) has pivot index 0 and leaves the prefix up to the pivot in
place. -/
theorem incorporate_keeps_entries_before_pivot_witness :
    (incorporate [⟨none, 20, 30⟩, ⟨none, 10, 20⟩] ⟨none, 15, 25⟩).2.take 1 =
      ([⟨none, 20, 30⟩, ⟨none, 10, 20⟩] : List Profile).take 1 ∧
    (incorporate [⟨none, 20, 30⟩, ⟨none, 10, 20⟩] ⟨none, 15, 25⟩).2[0]? =
      some ⟨none, 20, 30⟩ := by
  refine ⟨(incorporate_keeps_entries_before_pivot _ _).1 0 (by decide), ?_⟩
  exact (incorporate_keeps_entries_before_pivot
    [⟨none, 20, 30⟩, ⟨none, 10, 20⟩] ⟨none, 15, 25⟩).2
    0 ⟨none, 20, 30⟩ rfl (by decide)

/-- Claim C3, counterexample: compute does not give final_footpaths the
minimum duration over the destination's incoming footpaths.  With two
footpaths from stop 1 into the destination of durations 7 then 3, the
minimum semantics of the claim would yield arrival 20 + 3 = 23, but compute
takes the first match and yields 27. -/
theorem compute_first_footpath_not_min :
    compute ttC3 2 =
      some [[⟨some 0, 10, 27⟩], [], [⟨none, 65535, 0⟩]] ∧
    spec_min_final_footpath (ttC3.footpaths.getD 2 []) 1 = some 3 ∧
    (27 : Nat) ≠ 20 + 3 := by
  decide

/-- Claim C3, amended: compute takes the timetable and a single destination
stop index; its initialization pushes the sentinel profile onto the profile
list of that one destination, leaves every other profile list empty, binds
final_footpaths to the destination's raw incoming-footpath list (first-match
semantics, not the per-stop minimum of the original claim), and clears the
per-trip arrival table. -/
theorem computeInit_single_destination (t : Timetable) (destination : Nat)
    (hd : destination < t.stops.length)
    (hf : destination < t.footpaths.length) :
    ∃ (arr0 : List (Option Nat)) (ps0 : List (List Profile))
      (ffp : List Footpath),
      computeInit t destination = some (arr0, ps0, ffp) ∧
      ffp = t.footpaths.getD destination [] ∧
      arr0 = t.trips.map (fun _ => none) ∧
      ps0.length = t.stops.length ∧
      ps0[destination]? = some [Profile.default] ∧
      (∀ s : Nat, s < t.stops.length → s ≠ destination → ps0[s]? = some []) := by
  have hmap : (t.stops.map (fun _ => ([] : List Profile)))[destination]? =
      some [] := by
    rw [List.getElem?_map, List.getElem?_eq_getElem hd]
    rfl
  have hfp : t.footpaths[destination]? =
      some (t.footpaths.getD destination []) := by
    rw [List.getElem?_eq_getElem hf]
    rw [List.getD_eq_getElem?_getD, List.getElem?_eq_getElem hf]
    rfl
  refine ⟨t.trips.map (fun _ => none),
    (t.stops.map (fun _ => ([] : List Profile))).set destination
      [Profile.default],
    t.footpaths.getD destination [], ?_, rfl, rfl, ?_, ?_, ?_⟩
  · simp only [computeInit]
    rw [hmap, hfp]
    rfl
  · rw [List.length_set, List.length_map]
  · rw [List.getElem?_set_self (by rw [List.length_map]; exact hd)]
  · intro s hs hne
    rw [List.getElem?_set_ne (fun h => hne h.symm), List.getElem?_map,
      List.getElem?_eq_getElem hs]
    rfl

/-- Witness for the amended claim C3: the initialization on the fixture
timetable with destination 2. -/
theorem computeInit_single_destination_witness :
    ∃ (arr0 : List (Option Nat)) (ps0 : List (List Profile))
      (ffp : List Footpath),
      computeInit ttC3 2 = some (arr0, ps0, ffp) ∧
      ffp = ttC3.footpaths.getD 2 [] ∧
      arr0 = ttC3.trips.map (fun _ => none) ∧
      ps0.length = ttC3.stops.length ∧
      ps0[2]? = some [Profile.default] ∧
      (∀ s : Nat, s < ttC3.stops.length → s ≠ 2 → ps0[s]? = some []) :=
  computeInit_single_destination ttC3 2 (by decide) (by decide)


theorem lookup_append (a : String) (l1 l2 : List (String × Nat)) :
    (l1 ++ l2).lookup a =
      match l1.lookup a with
      | some b => some b
      | none => l2.lookup a := by
  induction l1 with
  | nil => simp [List.lookup]
  | cons p rest ih =>
    rcases p with ⟨k, v⟩
    by_cases h : a == k
    · simp [List.lookup, h]
    · simp only [Bool.not_eq_true] at h
      simp [List.lookup, h, ih]

theorem lookup_mem {l : List (String × Nat)} {a : String} {b : Nat}
    (h : l.lookup a = some b) : (a, b) ∈ l := by
  induction l with
  | nil => cases h
  | cons p rest ih =>
    rcases p with ⟨k, v⟩
    by_cases hk : a == k
    · rw [List.lookup, hk] at h
      cases h
      have : a = k := by simpa using hk
      subst this
      exact List.mem_cons_self _ _
    · simp only [Bool.not_eq_true] at hk
      rw [List.lookup, hk] at h
      exact List.mem_cons_of_mem _ (ih h)

theorem pair_snd_index {l : List (String × Nat)}
    (hmap : l.map Prod.snd = List.range l.length)
    {p : String × Nat} (hp : p ∈ l) : l[p.2]? = some p ∧ p.2 < l.length := by
  rcases List.mem_iff_getElem?.mp hp with ⟨k, hk⟩
  have hsnd : (l.map Prod.snd)[k]? = some p.2 := by
    rw [List.getElem?_map, hk]
    rfl
  rw [hmap] at hsnd
  have hkl : k < l.length := by
    by_contra hge
    rw [List.getElem?_eq_none (by simpa using Nat.le_of_not_lt hge)] at hsnd
    cases hsnd
  rw [List.getElem?_range hkl] at hsnd
  have : p.2 = k := by cases hsnd; rfl
  subst this
  exact ⟨hk, hkl⟩

theorem pair_inj {l : List (String × Nat)}
    (hmap : l.map Prod.snd = List.range l.length)
    {p q : String × Nat} (hp : p ∈ l) (hq : q ∈ l) (heq : p.2 = q.2) :
    p = q := by
  have h1 := (pair_snd_index hmap hp).1
  have h2 := (pair_snd_index hmap hq).1
  rw [heq] at h1
  rw [h1] at h2
  exact (Option.some.inj h2)

theorem chainOK_append {l : List Connection} {c : Connection}
    (hch : chainOK l = true)
    (hlink : ∀ cl : Connection, l.getLast? = some cl →
      cl.arr_stop = c.dep_stop ∧ cl.arr_time = c.dep_time) :
    chainOK (l ++ [c]) = true := by
  induction l with
  | nil => simp [chainOK]
  | cons x rest ih =>
    cases rest with
    | nil =>
      rcases hlink x rfl with ⟨h1, h2⟩
      simp [chainOK, h1, h2]
    | cons y r =>
      rw [chainOK] at hch
      simp only [Bool.and_eq_true] at hch
      have hlink2 : ∀ cl : Connection, (y :: r).getLast? = some cl →
          cl.arr_stop = c.dep_stop ∧ cl.arr_time = c.dep_time := by
        intro cl hcl
        apply hlink
        rw [List.getLast?_cons_cons]
        exact hcl
      have hih := ih hch.2 hlink2
      simp only [List.cons_append]
      rw [chainOK]
      simp only [Bool.and_eq_true]
      refine ⟨hch.1, ?_⟩
      simpa using hih

theorem filter_one_pos {p : α → Bool} {c : α} (h : p c = true) :
    List.filter p [c] = [c] := by
  simp [List.filter, h]

theorem filter_one_neg {p : α → Bool} {c : α} (h : p c = false) :
    List.filter p [c] = [] := by
  simp [List.filter, h]

theorem stop_spec (b : TimetableBuilder) (id : String)
    (hmap : b.stop_map.map Prod.snd = List.range b.stop_map.length) :
    (b.stop id).2.stop_map.map Prod.snd =
      List.range (b.stop id).2.stop_map.length ∧
    (b.stop id).2.stop_map.lookup id = some (b.stop id).1 ∧
    (∀ (k : String) (v : Nat), b.stop_map.lookup k = some v →
      (b.stop id).2.stop_map.lookup k = some v) ∧
    (b.stop id).2.trips = b.trips ∧
    (b.stop id).2.connections = b.connections ∧
    (b.stop id).2.last_stop = b.last_stop ∧
    (∀ (k : String) (v : Nat), b.stop_map.lookup k = some v → k ≠ id →
      v ≠ (b.stop id).1) := by
  cases hlk : b.stop_map.lookup id with
  | some i =>
    have hst : b.stop id = (i, b) := by
      simp [TimetableBuilder.stop, hlk]
    rw [hst]
    refine ⟨hmap, hlk, fun k v hv => hv, rfl, rfl, rfl, ?_⟩
    intro k v hv hne hvi
    subst hvi
    have h1 := lookup_mem hv
    have h2 := lookup_mem hlk
    have := pair_inj hmap h1 h2 rfl
    apply hne
    exact congrArg Prod.fst this
  | none =>
    have hst : b.stop id =
        (b.stop_map.length,
         { b with stop_map := b.stop_map ++ [(id, b.stop_map.length)] }) := by
      simp [TimetableBuilder.stop, hlk]
    rw [hst]
    refine ⟨?_, ?_, ?_, rfl, rfl, rfl, ?_⟩
    · rw [List.map_append, hmap]
      simp [List.range_succ]
    · rw [lookup_append, hlk]
      simp [List.lookup]
    · intro k v hv
      rw [lookup_append, hv]
    · intro k v hv hne hvi
      have := (pair_snd_index hmap (lookup_mem hv)).2
      simp at hvi
      omega

theorem runBuilderFrom_inv (cmds : List Cmd) :
    ∀ (b : TimetableBuilder) (last : Option (String × Nat))
      (b' : TimetableBuilder),
      cmdsWF cmds last = true →
      runBuilderFrom b cmds = some b' →
      BuilderInv b last →
      ∃ last', BuilderInv b' last' := by
  induction cmds with
  | nil =>
    intro b last b' hw hrun hinv
    rw [runBuilderFrom] at hrun
    cases hrun
    exact ⟨last, hinv⟩
  | cons cmd rest ih =>
    intro b last b' hw hrun hinv
    unfold BuilderInv at hinv
    cases cmd with
    | trip =>
      rw [runBuilderFrom] at hrun
      have hw2 : cmdsWF rest none = true := hw
      apply ih b.trip none b' hw2 hrun
      unfold BuilderInv
      simp only [TimetableBuilder.trip]
      refine ⟨hinv.1, ?_, hinv.2.2.1, ?_, ?_⟩
      · intro c hc
        have h := hinv.2.1 c hc
        refine ⟨h.1, h.2.1, ?_⟩
        have := h.2.2
        simp only [List.length_append, List.length_cons, List.length_nil]
        omega
      · intro tr htr
        apply hinv.2.2.2.1
        simp only [List.length_append, List.length_cons, List.length_nil] at htr
        omega
      · simp only [List.length_append, List.length_cons, List.length_nil,
          Nat.add_sub_cancel]
        exact hinv.2.2.2.1 b.trips.length (Nat.le_refl _)
    | s id t =>
      rw [runBuilderFrom] at hrun
      cases hbs : b.s id t with
      | none => rw [hbs] at hrun; cases hrun
      | some b1 =>
        rw [hbs] at hrun
        have hspec := stop_spec b id hinv.1
        by_cases h0 : b.trips.length = 0
        · simp only [TimetableBuilder.s, h0, if_pos rfl] at hbs
          cases hbs
        · simp only [TimetableBuilder.s, if_neg h0] at hbs
          rw [hspec.2.2.2.2.2.1] at hbs
          cases hbls : b.last_stop with
          | none =>
            -- the tracker must also be none
            cases hlast : last with
            | some idt =>
              rw [hbls, hlast] at hinv
              exact absurd hinv.2.2.2.2 (by simp)
            | none =>
              rw [hbls, hlast] at hinv
              rw [hbls] at hbs
              simp only [] at hbs
              cases hbs
              subst hlast
              have hw2 : cmdsWF rest (some (id, t)) = true := hw
              apply ih _ (some (id, t)) b' hw2 hrun
              unfold BuilderInv
              refine ⟨hspec.1, ?_, ?_, ?_, ?_⟩
              · intro c hc
                rw [hspec.2.2.2.2.1] at hc
                have h := hinv.2.1 c hc
                rw [hspec.2.2.2.1]
                exact h
              · intro tr
                rw [hspec.2.2.2.2.1]
                exact hinv.2.2.1 tr
              · intro tr htr
                rw [hspec.2.2.2.2.1]
                apply hinv.2.2.2.1
                rw [hspec.2.2.2.1] at htr
                exact htr
              · refine ⟨rfl, hspec.2.1, ?_⟩
                intro cl hcl
                rw [hspec.2.2.2.2.1, hspec.2.2.2.1] at hcl
                rw [hinv.2.2.2.2] at hcl
                cases hcl
          | some prev =>
            cases hlast : last with
            | none =>
              rw [hbls, hlast] at hinv
              exact absurd hinv.2.2.2.2 (by simp)
            | some idt =>
              rw [hbls, hlast] at hinv
              rcases idt with ⟨pid, pt⟩
              rcases prev with ⟨i, t0⟩
              have hmatch := hinv.2.2.2.2
              simp only [] at hmatch
              rcases hmatch with ⟨ht0, hlk, hend⟩
              rw [hbls] at hbs
              simp only [] at hbs
              cases hbs
              subst hlast
              have hw2 : (decide (pt ≤ t) && decide (pid ≠ id) &&
                  cmdsWF rest (some (id, t))) = true := hw
              simp only [Bool.and_eq_true, decide_eq_true_eq] at hw2
              rcases hw2 with ⟨⟨hpt, hpid⟩, hw2⟩
              apply ih _ (some (id, t)) b' hw2 hrun
              unfold BuilderInv
              constructor
              · exact hspec.1
              constructor
              · intro c hc
                simp only [] at hc
                rw [hspec.2.2.2.2.1] at hc
                rcases List.mem_append.mp hc with hold | hnew
                · have h := hinv.2.1 c hold
                  rw [hspec.2.2.2.1]
                  exact h
                · rw [List.mem_singleton] at hnew
                  subst hnew
                  refine ⟨by simpa [ht0] using hpt, ?_, ?_⟩
                  · have := hspec.2.2.2.2.2.2 pid i hlk hpid
                    simpa using this
                  · rw [hspec.2.2.2.1]
                    simp
                    omega
              constructor
              · intro tr
                simp only []
                rw [hspec.2.2.2.2.1, List.filter_append]
                by_cases htr : b.trips.length - 1 = tr
                · subst htr
                  rw [filter_one_pos (by simp)]
                  apply chainOK_append (hinv.2.2.1 _)
                  intro cl hcl
                  have h := hend cl hcl
                  exact ⟨h.1, by rw [h.2, ht0]⟩
                · rw [filter_one_neg (by simpa using htr), List.append_nil]
                  exact hinv.2.2.1 tr
              constructor
              · intro tr htr
                simp only []
                simp only [hspec.2.2.2.1] at htr
                rw [hspec.2.2.2.2.1, List.filter_append,
                  filter_one_neg (by simp; omega), List.append_nil]
                exact hinv.2.2.2.1 tr htr
              · refine ⟨rfl, hspec.2.1, ?_⟩
                intro cl hcl
                simp only [hspec.2.2.2.1, hspec.2.2.2.2.1,
                  List.filter_append] at hcl
                rw [filter_one_pos (by simp), List.getLast?_concat] at hcl
                cases hcl
                exact ⟨rfl, rfl⟩

/-- Claim C7, counterexample: the builder performs no validation, so a
sequence of calls whose times decrease and whose consecutive stops coincide
produces a built timetable containing a connection with arr_time below
dep_time and dep_stop equal to arr_stop, contradicting the claim for this
sequence of builder calls. -/
theorem builder_unchecked_connection :
    runBuilder [Cmd.trip, Cmd.s "a" 10, Cmd.s "a" 5] = some bBad7 ∧
    (bBad7.build ["a"]).connections = [⟨0, 10, 5, 0, 0⟩] ∧
    Connection.arr_time ⟨0, 10, 5, 0, 0⟩ <
      Connection.dep_time ⟨0, 10, 5, 0, 0⟩ ∧
    Connection.dep_stop ⟨0, 10, 5, 0, 0⟩ =
      Connection.arr_stop ⟨0, 10, 5, 0, 0⟩ := by
  refine ⟨by decide, ?_, by decide, rfl⟩
  simp only [TimetableBuilder.build, bBad7]
  exact List.mergeSort_singleton _

/-- Claim C7, amended: for every sequence of builder calls in which, within
each trip, consecutive stop entries carry non-decreasing times and distinct
stop identifiers, every connection of the timetable returned by build()
satisfies arr_time at least dep_time and dep_stop distinct from arr_stop;
the built connections are a permutation (the descending stable sort) of the
builder's connection list, in which the connections of each trip, in
insertion order, chain: each arrives where and when the next departs. -/
theorem builder_build_invariants (cmds : List Cmd) (b : TimetableBuilder)
    (order : List String)
    (hw : cmdsWF cmds none = true) (hrun : runBuilder cmds = some b) :
    (∀ c ∈ (b.build order).connections,
      c.dep_time ≤ c.arr_time ∧ c.dep_stop ≠ c.arr_stop) ∧
    (∀ tr : Nat,
      chainOK (b.connections.filter (fun c => c.trip == tr)) = true) ∧
    ((b.build order).connections).Perm b.connections := by
  have hinv0 : BuilderInv Timetable.builder none := by
    unfold BuilderInv Timetable.builder
    refine ⟨rfl, ?_, ?_, ?_, ?_⟩
    · intro c hc
      simp at hc
    · intro tr
      rfl
    · intro tr htr
      rfl
    · rfl
  rcases runBuilderFrom_inv cmds Timetable.builder none b hw hrun hinv0 with
    ⟨last', hinv⟩
  unfold BuilderInv at hinv
  have hperm : ((b.build order).connections).Perm b.connections := by
    simp only [TimetableBuilder.build]
    exact List.mergeSort_perm _ _
  refine ⟨?_, hinv.2.2.1, hperm⟩
  intro c hc
  have hm : c ∈ b.connections := (hperm.mem_iff).mp hc
  have h := hinv.2.1 c hm
  exact ⟨h.1, h.2.1⟩

/-- Witness for the amended claim C7: the two-trip sequence a(10) b(20),
b(30) c(40). -/
theorem builder_build_invariants_witness :
    (∀ c ∈ (bW7.build ["a", "b", "c"]).connections,
      c.dep_time ≤ c.arr_time ∧ c.dep_stop ≠ c.arr_stop) ∧
    (∀ tr : Nat,
      chainOK (bW7.connections.filter (fun c => c.trip == tr)) = true) ∧
    ((bW7.build ["a", "b", "c"]).connections).Perm bW7.connections :=
  builder_build_invariants
    [Cmd.trip, Cmd.s "a" 10, Cmd.s "b" 20, Cmd.trip, Cmd.s "b" 30,
     Cmd.s "c" 40]
    bW7 ["a", "b", "c"] (by decide) (by decide)


theorem firstSeen_nodup (cmds : List Cmd) : (firstSeen cmds).Nodup := by
  induction cmds with
  | nil => exact List.nodup_nil
  | cons cmd rest ih =>
    cases cmd with
    | trip => exact ih
    | s id t =>
      rw [firstSeen]
      refine List.Nodup.cons ?_ (List.Nodup.filter _ ih)
      intro hmem
      have := List.of_mem_filter hmem
      simp at this

theorem lookup_of_key_at (l : List (String × Nat)) (k v : Nat) (id : String)
    (hnd : (l.map Prod.fst).Nodup) (h : l[k]? = some (id, v)) :
    l.lookup id = some v := by
  induction l generalizing k with
  | nil => cases h
  | cons p rest ih =>
    cases k with
    | zero =>
      rw [List.getElem?_cons_zero] at h
      cases h
      rw [List.lookup]
      simp
    | succ k' =>
      rw [List.getElem?_cons_succ] at h
      have hne : p.1 ≠ id := by
        intro heq
        rw [List.map_cons] at hnd
        have hpmem : (id, v) ∈ rest := List.getElem?_mem h
        have : id ∈ rest.map Prod.fst :=
          List.mem_map.mpr ⟨(id, v), hpmem, rfl⟩
        rw [heq] at hnd
        exact (List.nodup_cons.mp hnd).1 this
      have hbeq : (id == p.1) = false := by
        simp
        intro heq
        exact hne heq.symm
      rw [List.lookup, hbeq]
      exact ih k' (List.nodup_cons.mp (by rw [List.map_cons] at hnd; exact hnd)).2 h

theorem runBuilderFrom_stops (cmds : List Cmd) :
    ∀ (b b' : TimetableBuilder),
      runBuilderFrom b cmds = some b' →
      b.stop_map.map Prod.snd = List.range b.stop_map.length →
      b'.stop_map.map Prod.fst =
        b.stop_map.map Prod.fst ++
          (firstSeen cmds).filter
            (fun x => decide (¬ x ∈ b.stop_map.map Prod.fst)) ∧
      b'.stop_map.map Prod.snd = List.range b'.stop_map.length := by
  induction cmds with
  | nil =>
    intro b b' hrun hsnd
    rw [runBuilderFrom] at hrun
    cases hrun
    simp [firstSeen]
    exact hsnd
  | cons cmd rest ih =>
    intro b b' hrun hsnd
    cases cmd with
    | trip =>
      rw [runBuilderFrom] at hrun
      have := ih b.trip b' hrun hsnd
      rw [firstSeen]
      exact this
    | s id t =>
      rw [runBuilderFrom] at hrun
      cases hbs : b.s id t with
      | none => rw [hbs] at hrun; cases hrun
      | some b1 =>
        rw [hbs] at hrun
        by_cases h0 : b.trips.length = 0
        · simp only [TimetableBuilder.s, h0, if_pos rfl] at hbs
          cases hbs
        · simp only [TimetableBuilder.s, if_neg h0] at hbs
          cases hlk : b.stop_map.lookup id with
          | some i =>
            have hst : b.stop id = (i, b) := by
              simp [TimetableBuilder.stop, hlk]
            rw [hst] at hbs
            have hidmem : id ∈ b.stop_map.map Prod.fst :=
              List.mem_map.mpr ⟨(id, i), lookup_mem hlk, rfl⟩
            have hb1map : b1.stop_map = b.stop_map := by
              cases hbls : b.last_stop with
              | none => rw [hbls] at hbs; cases hbs; rfl
              | some prev => rw [hbls] at hbs; cases hbs; rfl
            rcases ih b1 b' hrun (by rw [hb1map]; exact hsnd) with ⟨h1, h2⟩
            refine ⟨?_, h2⟩
            rw [h1, hb1map, firstSeen]
            congr 1
            rw [List.filter_cons]
            have hc : (decide (¬ id ∈ b.stop_map.map Prod.fst)) = false := by
              simp [hidmem]
            rw [hc]
            simp only [Bool.false_eq_true, if_false]
            rw [List.filter_filter]
            apply List.filter_congr
            intro x hx
            by_cases hxm : x ∈ b.stop_map.map Prod.fst
            · simp [hxm]
            · have hxid : x ≠ id := by
                intro heq
                rw [heq] at hxm
                exact hxm hidmem
              simp [hxm, hxid]
          | none =>
            have hst : b.stop id =
                (b.stop_map.length,
                 { b with stop_map :=
                     b.stop_map ++ [(id, b.stop_map.length)] }) := by
              simp [TimetableBuilder.stop, hlk]
            rw [hst] at hbs
            have hidnot : ¬ id ∈ b.stop_map.map Prod.fst := by
              intro hmem
              rcases List.mem_map.mp hmem with ⟨p, hp, hfst⟩
              have : b.stop_map.lookup p.1 = none := by rw [hfst]; exact hlk
              revert this hp
              clear hbs hrun
              induction b.stop_map with
              | nil => intro hp _; cases hp
              | cons q r ihq =>
                intro hp hlkp
                rcases List.mem_cons.mp hp with hq | hr
                · subst hq
                  rw [List.lookup] at hlkp
                  simp at hlkp
                · rw [List.lookup] at hlkp
                  cases hbq : (p.1 == q.1) with
                  | true => rw [hbq] at hlkp; cases hlkp
                  | false =>
                    rw [hbq] at hlkp
                    exact ihq hr hlkp
            have hb1map : b1.stop_map =
                b.stop_map ++ [(id, b.stop_map.length)] := by
              cases hbls : b.last_stop with
              | none => rw [hbls] at hbs; cases hbs; rfl
              | some prev => rw [hbls] at hbs; cases hbs; rfl
            have hsnd1 : b1.stop_map.map Prod.snd =
                List.range b1.stop_map.length := by
              rw [hb1map, List.map_append, hsnd]
              simp [List.range_succ]
            rcases ih b1 b' hrun hsnd1 with ⟨h1, h2⟩
            refine ⟨?_, h2⟩
            have hfilter : ∀ F : List String,
                F.filter
                  (fun x => decide (¬ x ∈ b.stop_map.map Prod.fst ++ [id])) =
                (F.filter (fun x => x != id)).filter
                  (fun x => decide (¬ x ∈ b.stop_map.map Prod.fst)) := by
              intro F
              rw [List.filter_filter]
              apply List.filter_congr
              intro x hx
              by_cases hxid : x = id
              · subst hxid
                simp
              · by_cases hxm : x ∈ b.stop_map.map Prod.fst
                · simp [hxm, hxid]
                · simp [hxm, hxid]
            rw [h1, hb1map, firstSeen, List.map_append, List.append_assoc]
            congr 1
            have hkeys : (List.map Prod.fst [(id, b.stop_map.length)]) =
                [id] := rfl
            have hfc : (decide (¬ id ∈ b.stop_map.map Prod.fst)) = true := by
              simp [hidnot]
            rw [hkeys, List.singleton_append, hfilter, List.filter_cons, hfc,
              if_pos rfl]

/-- Claim C8, counterexample: the stops array of build() is materialized in
the HashMap iteration order, which is unspecified; under the iteration order
b, a (a permutation of the keys, hence a possible iteration order), the
identifier a is assigned index 0 but the Stop record at index 0 carries the
identifier b. -/
theorem builder_stops_not_aligned :
    runBuilder [Cmd.trip, Cmd.s "a" 10, Cmd.s "b" 20] = some b8 ∧
    b8.stop_map.lookup "a" = some 0 ∧
    (["b", "a"].Perm (b8.stop_map.map Prod.fst)) ∧
    ((b8.build ["b", "a"]).stops.map Stop.id)[0]? = some "b" ∧
    "b" ≠ "a" := by
  refine ⟨by decide, by decide, by decide, by decide, by decide⟩

/-- Claim C8, amended: stop identifiers are assigned dense integer indices in
first-seen order (the keys of the stop map, in order, are the distinct
identifiers in order of first occurrence; the values are 0, 1, ...; the index
assigned to the k-th first-seen identifier is k), and the stops array of
build() contains exactly one Stop record per distinct identifier (its
identifiers are a permutation of the keys and its length matches); but the
record stored at the index assigned to an identifier need not carry that
identifier, the array being laid out in the unspecified HashMap iteration
order. -/
theorem builder_stop_assignment (cmds : List Cmd) (b : TimetableBuilder)
    (order : List String)
    (hrun : runBuilder cmds = some b)
    (hord : order.Perm (b.stop_map.map Prod.fst)) :
    b.stop_map.map Prod.fst = firstSeen cmds ∧
    b.stop_map.map Prod.snd = List.range b.stop_map.length ∧
    (∀ (k : Nat) (id : String), (firstSeen cmds)[k]? = some id →
      b.stop_map.lookup id = some k) ∧
    ((b.build order).stops.map Stop.id).Perm (b.stop_map.map Prod.fst) ∧
    (b.build order).stops.length = b.stop_map.length := by
  rcases runBuilderFrom_stops cmds Timetable.builder b hrun rfl with ⟨h1, h2⟩
  have hkeys : b.stop_map.map Prod.fst = firstSeen cmds := by
    rw [h1]
    have hall : ∀ x ∈ firstSeen cmds,
        (decide (¬ x ∈ (Timetable.builder.stop_map.map Prod.fst))) = true := by
      intro x hx
      simp [Timetable.builder]
    rw [List.filter_eq_self.mpr hall]
    simp [Timetable.builder]
  refine ⟨hkeys, h2, ?_, ?_, ?_⟩
  · intro k id hk
    have hk1 : (b.stop_map.map Prod.fst)[k]? = some id := by
      rw [hkeys]
      exact hk
    rw [List.getElem?_map] at hk1
    cases hp : b.stop_map[k]? with
    | none => rw [hp] at hk1; cases hk1
    | some p =>
      rw [hp] at hk1
      have hfst : p.1 = id := by
        cases hk1
        rfl
      have hkl : k < b.stop_map.length := by
        by_contra hge
        rw [List.getElem?_eq_none (Nat.le_of_not_lt hge)] at hp
        cases hp
      have hk2 : (b.stop_map.map Prod.snd)[k]? = some p.2 := by
        rw [List.getElem?_map, hp]
        rfl
      rw [h2, List.getElem?_range (by simpa using hkl)] at hk2
      have hsnd : p.2 = k := by
        cases hk2
        rfl
      have hpk : b.stop_map[k]? = some (id, k) := by
        rw [hp, ← hfst, ← hsnd]
      apply lookup_of_key_at b.stop_map k k id
      · rw [hkeys]
        exact firstSeen_nodup cmds
      · exact hpk
  · have hms : (b.build order).stops.map Stop.id = order := by
      simp only [TimetableBuilder.build, List.map_map]
      have hcomp : (Stop.id ∘ fun id =>
          ({ id := id, name := id, parent_station := none,
             location_type := LocationType.StopPoint } : Stop)) =
          fun id => id := rfl
      rw [hcomp]
      exact List.map_id' order
    rw [hms]
    exact hord
  · simp only [TimetableBuilder.build, List.length_map]
    exact hord.length_eq.trans (List.length_map _ _)

/-- Witness for the amended claim C8: the sequence trip(), s(a,10), s(b,20)
under the insertion iteration order. -/
theorem builder_stop_assignment_witness :
    b8.stop_map.map Prod.fst =
      firstSeen [Cmd.trip, Cmd.s "a" 10, Cmd.s "b" 20] ∧
    b8.stop_map.map Prod.snd = List.range b8.stop_map.length ∧
    (∀ (k : Nat) (id : String),
      (firstSeen [Cmd.trip, Cmd.s "a" 10, Cmd.s "b" 20])[k]? = some id →
      b8.stop_map.lookup id = some k) ∧
    ((b8.build ["a", "b"]).stops.map Stop.id).Perm
      (b8.stop_map.map Prod.fst) ∧
    (b8.build ["a", "b"]).stops.length = b8.stop_map.length :=
  builder_stop_assignment [Cmd.trip, Cmd.s "a" 10, Cmd.s "b" 20] b8
    ["a", "b"] (by decide) (by decide)


theorem minOpt_eq_some {a b : Option Nat} {v : Nat} (h : minOpt a b = some v) :
    (∃ x, a = some x) ∨ (∃ y, b = some y) := by
  cases a with
  | none => exact Or.inr ⟨v, h⟩
  | some x => exact Or.inl ⟨x, rfl⟩

theorem propagate_go_inv (t : Timetable) (destination : Nat)
    (conn_index tv : Nat) (c : Connection) :
    ∀ (fl : List Footpath) (profiles : List (List Profile)),
      (∀ f ∈ fl, f.«from» < t.stops.length ∧
        Reachable t destination f.«from») →
      profiles.length = t.stops.length →
      (∀ (s : Nat) (l : List Profile), profiles[s]? = some l → l ≠ [] →
        Reachable t destination s) →
      ∃ ps', propagate_go conn_index tv c fl profiles = some ps' ∧
        ps'.length = t.stops.length ∧
        (∀ (s : Nat) (l : List Profile), ps'[s]? = some l → l ≠ [] →
          Reachable t destination s) := by
  intro fl
  induction fl with
  | nil =>
    intro profiles _ hlen hinv
    exact ⟨profiles, rfl, hlen, hinv⟩
  | cons f rest ih =>
    intro profiles hf hlen hinv
    have hflt : f.«from» < profiles.length := by
      rw [hlen]
      exact (hf f (List.mem_cons_self f rest)).1
    obtain ⟨l, hl⟩ : ∃ l, profiles[f.«from»]? = some l :=
      ⟨_, List.getElem?_eq_getElem hflt⟩
    rw [propagate_go, hl]
    apply ih
    · intro g hg
      exact hf g (List.mem_cons_of_mem _ hg)
    · rw [List.length_set]
      exact hlen
    · intro s l' hs hne
      by_cases hsf : s = f.«from»
      · subst hsf
        exact (hf f (List.mem_cons_self f rest)).2
      · rw [List.getElem?_set_ne (fun h => hsf h.symm)] at hs
        exact hinv s l' hs hne

theorem computeStep_inv (t : Timetable) (destination : Nat)
    (ffp : List Footpath) (hffp : t.footpaths[destination]? = some ffp)
    (hwf : t.wf) (st : List (Option Nat) × List (List Profile))
    (hinv : StateInv t destination st) (i : Nat) (c : Connection)
    (hc : c ∈ t.connections) :
    ∃ st', computeStep t ffp st (i, c) = some st' ∧
      StateInv t destination st' := by
  obtain ⟨arr, profiles⟩ := st
  unfold StateInv at hinv
  obtain ⟨hl1, hl2, hp, ha⟩ := hinv
  simp only [] at hl1 hl2 hp ha
  obtain ⟨hfl, hcb, hfb⟩ := hwf
  obtain ⟨hcd, hca, hct⟩ := hcb c hc
  have htrip_lt : c.trip < arr.length := by rw [hl1]; exact hct
  obtain ⟨t2, ht2⟩ : ∃ t2, arr[c.trip]? = some t2 :=
    ⟨_, List.getElem?_eq_getElem htrip_lt⟩
  have harr_lt : c.arr_stop < profiles.length := by rw [hl2]; exact hca
  obtain ⟨ap, hap⟩ : ∃ ap, profiles[c.arr_stop]? = some ap :=
    ⟨_, List.getElem?_eq_getElem harr_lt⟩
  have hdep_lt : c.dep_stop < profiles.length := by rw [hl2]; exact hcd
  obtain ⟨dp, hdp⟩ : ∃ dp, profiles[c.dep_stop]? = some dp :=
    ⟨_, List.getElem?_eq_getElem hdep_lt⟩
  have hdfp_lt : c.dep_stop < t.footpaths.length := by rw [hfl]; exact hcd
  obtain ⟨dfps, hdfps⟩ : ∃ dfps, t.footpaths[c.dep_stop]? = some dfps :=
    ⟨_, List.getElem?_eq_getElem hdfp_lt⟩
  have hstep : computeStep t ffp (arr, profiles) (i, c) =
      match minOpt
          ((ffp.find? (fun f => f.«from» == c.arr_stop)).map
            (fun f => c.arr_time + f.duration))
          (minOpt t2 (arrival_time_with_stop_change ap c)) with
      | none => some (arr, profiles)
      | some tv =>
        match (if (incorporate dp
              { out_connection := some i, dep_time := c.dep_time,
                arr_time := tv }).1 = true then
            propagate i tv c dfps
              (profiles.set c.dep_stop
                (incorporate dp
                  { out_connection := some i, dep_time := c.dep_time,
                    arr_time := tv }).2)
          else
            some (profiles.set c.dep_stop
              (incorporate dp
                { out_connection := some i, dep_time := c.dep_time,
                  arr_time := tv }).2)) with
        | none => none
        | some profiles2 => some (arr.set c.trip (some tv), profiles2) := by
    simp only [computeStep]
    rw [ht2, hap, hdp, hdfps]
  rw [hstep]
  cases hmin : minOpt
      ((ffp.find? (fun f => f.«from» == c.arr_stop)).map
        (fun f => c.arr_time + f.duration))
      (minOpt t2 (arrival_time_with_stop_change ap c)) with
  | none =>
    refine ⟨(arr, profiles), rfl, ?_⟩
    exact ⟨hl1, hl2, hp, ha⟩
  | some tv =>
    simp only []
    -- there is a connection of the same trip arriving at a reachable stop
    have hkey : ∃ c', c' ∈ t.connections ∧ c'.trip = c.trip ∧
        Reachable t destination c'.arr_stop := by
      rcases minOpt_eq_some hmin with ⟨x, hx⟩ | ⟨y, hy⟩
      · rcases Option.map_eq_some'.mp hx with ⟨f, hfind, _⟩
        have hfmem := List.mem_of_find?_eq_some hfind
        have hfpred := List.find?_some hfind
        have heq : f.«from» = c.arr_stop := by simpa using hfpred
        have hre : Reachable t destination f.«from» :=
          Reachable.footpath destination ffp f Reachable.dest hffp hfmem
        rw [heq] at hre
        exact ⟨c, hc, rfl, hre⟩
      · rcases minOpt_eq_some hy with ⟨v, hv⟩ | ⟨z, hz⟩
        · rw [hv] at ht2
          exact ha c.trip v ht2
        · rcases Option.map_eq_some'.mp hz with ⟨pos, hpos, _⟩
          have hapne : ap ≠ [] := by
            intro hnil
            rw [hnil] at hpos
            cases hpos
          exact ⟨c, hc, rfl, hp c.arr_stop ap hap hapne⟩
    rcases hkey with ⟨c', hc', htr', hre'⟩
    have hreach_dep : Reachable t destination c.dep_stop :=
      Reachable.ride c c' hc hc' htr'.symm hre'
    have hp1 : ∀ (s : Nat) (l : List Profile),
        (profiles.set c.dep_stop
          (incorporate dp
            { out_connection := some i, dep_time := c.dep_time,
              arr_time := tv }).2)[s]? = some l → l ≠ [] →
        Reachable t destination s := by
      intro s l hs hne
      by_cases hsd : s = c.dep_stop
      · subst hsd
        exact hreach_dep
      · rw [List.getElem?_set_ne (fun h => hsd h.symm)] at hs
        exact hp s l hs hne
    have hlen1 : (profiles.set c.dep_stop
        (incorporate dp
          { out_connection := some i, dep_time := c.dep_time,
            arr_time := tv }).2).length = t.stops.length := by
      rw [List.length_set]
      exact hl2
    have hinv4 : ∀ (tr v : Nat),
        (arr.set c.trip (some tv))[tr]? = some (some v) →
        ∃ c'' ∈ t.connections, c''.trip = tr ∧
          Reachable t destination c''.arr_stop := by
      intro tr v htv
      by_cases htc : tr = c.trip
      · subst htc
        exact ⟨c', hc', htr', hre'⟩
      · rw [List.getElem?_set_ne (fun h => htc h.symm)] at htv
        exact ha tr v htv
    cases hres : (incorporate dp
        { out_connection := some i, dep_time := c.dep_time,
          arr_time := tv }).1 with
    | true =>
      rw [if_pos rfl]
      have hfmem : ∀ f ∈ dfps.filter
          (fun p => decide (p.duration < c.dep_time)),
          f.«from» < t.stops.length ∧ Reachable t destination f.«from» := by
        intro f hf
        have hfm : f ∈ dfps := List.mem_of_mem_filter hf
        have hdm : dfps ∈ t.footpaths := List.getElem?_mem hdfps
        refine ⟨hfb dfps hdm f hfm, ?_⟩
        exact Reachable.footpath c.dep_stop dfps f hreach_dep hdfps hfm
      rcases propagate_go_inv t destination i tv c
          (dfps.filter (fun p => decide (p.duration < c.dep_time)))
          (profiles.set c.dep_stop
            (incorporate dp
              { out_connection := some i, dep_time := c.dep_time,
                arr_time := tv }).2)
          hfmem hlen1 hp1 with ⟨ps2, hps2, hlen2, hp2⟩
      rw [propagate, hps2]
      refine ⟨(arr.set c.trip (some tv), ps2), rfl, ?_⟩
      refine ⟨?_, hlen2, hp2, hinv4⟩
      rw [List.length_set]
      exact hl1
    | false =>
      simp only [Bool.false_eq_true, if_false]
      refine ⟨(arr.set c.trip (some tv),
        profiles.set c.dep_stop
          (incorporate dp
            { out_connection := some i, dep_time := c.dep_time,
              arr_time := tv }).2), rfl, ?_⟩
      refine ⟨?_, hlen1, hp1, hinv4⟩
      rw [List.length_set]
      exact hl1

theorem sweep_inv (t : Timetable) (destination : Nat) (ffp : List Footpath)
    (hffp : t.footpaths[destination]? = some ffp) (hwf : t.wf) :
    ∀ (pairs : List (Nat × Connection))
      (st : List (Option Nat) × List (List Profile)),
      (∀ p ∈ pairs, p.2 ∈ t.connections) →
      StateInv t destination st →
      ∃ st', sweep t ffp pairs st = some st' ∧
        StateInv t destination st' := by
  intro pairs
  induction pairs with
  | nil =>
    intro st _ hinv
    exact ⟨st, rfl, hinv⟩
  | cons p rest ih =>
    intro st hmem hinv
    obtain ⟨i, c⟩ := p
    rcases computeStep_inv t destination ffp hffp hwf st hinv i c
        (hmem (i, c) (List.mem_cons_self _ _)) with ⟨st1, hst1, hinv1⟩
    rw [sweep, hst1]
    exact ih st1 (fun q hq => hmem q (List.mem_cons_of_mem _ hq)) hinv1

theorem computeInit_ok (t : Timetable) (destination : Nat)
    (hd : destination < t.stops.length)
    (hf : destination < t.footpaths.length) :
    ∃ ffp, computeInit t destination =
      some (t.trips.map (fun _ => none),
        ((t.stops.map (fun _ => ([] : List Profile))).set destination
          [Profile.default], ffp)) ∧
      t.footpaths[destination]? = some ffp := by
  have hmap : (t.stops.map (fun _ => ([] : List Profile)))[destination]? =
      some [] := by
    rw [List.getElem?_map, List.getElem?_eq_getElem hd]
    rfl
  obtain ⟨ffp, hffp⟩ : ∃ ffp, t.footpaths[destination]? = some ffp :=
    ⟨_, List.getElem?_eq_getElem hf⟩
  refine ⟨ffp, ?_, hffp⟩
  simp only [computeInit]
  rw [hmap, hffp]
  rfl

theorem enum_snd_mem (l : List Connection) (p : Nat × Connection)
    (hp : p ∈ l.enum) : p.2 ∈ l := by
  have h := List.mem_enum_iff_getElem?.mp hp
  exact List.getElem?_mem h

/-- Claim C6, amended: for every well-formed timetable (stop, trip and
footpath indices in range, one footpath list per stop) and destination index
within range, compute terminates normally with no error, returning one
profile list per stop; and every stop from which the destination is
unreachable through the ride/trip/footpath graph (the Reachable closure) has
an empty profile list. -/
theorem compute_no_failure_unreachable_empty (t : Timetable)
    (destination : Nat) (hwf : t.wf) (hd : destination < t.stops.length) :
    ∃ ps, compute t destination = some ps ∧ ps.length = t.stops.length ∧
      ∀ s : Nat, s < t.stops.length → ¬ Reachable t destination s →
        ps[s]? = some [] := by
  have hf : destination < t.footpaths.length := by
    rw [hwf.1]
    exact hd
  rcases computeInit_ok t destination hd hf with ⟨ffp, hinit, hffp⟩
  have hinv0 : StateInv t destination
      (t.trips.map (fun _ => none),
       (t.stops.map (fun _ => ([] : List Profile))).set destination
         [Profile.default]) := by
    unfold StateInv
    refine ⟨by simp, by simp, ?_, ?_⟩
    · intro s l hs hne
      by_cases hsd : s = destination
      · subst hsd
        exact Reachable.dest
      · rw [List.getElem?_set_ne (fun h => hsd h.symm),
          List.getElem?_map] at hs
        cases hts : t.stops[s]? with
        | none => rw [hts] at hs; cases hs
        | some st =>
          rw [hts] at hs
          cases hs
          exact absurd rfl hne
    · intro tr v htv
      simp only [List.getElem?_map] at htv
      cases hts : t.trips[tr]? with
      | none => rw [hts] at htv; cases htv
      | some tp =>
        rw [hts] at htv
        cases htv
  have hmem : ∀ p ∈ t.connections.enum, p.2 ∈ t.connections :=
    fun p hp => enum_snd_mem _ p hp
  rcases sweep_inv t destination ffp hffp hwf t.connections.enum _
      hmem hinv0 with ⟨st', hst', hinv'⟩
  unfold StateInv at hinv'
  have hcomp : compute t destination =
      (sweep t ffp t.connections.enum
        (t.trips.map (fun _ => none),
         (t.stops.map (fun _ => ([] : List Profile))).set destination
           [Profile.default])).map (fun st => st.2) := by
    simp only [compute]
    rw [hinit]
  refine ⟨st'.2, ?_, hinv'.2.1, ?_⟩
  · rw [hcomp, hst']
    rfl
  · intro s hs hnr
    obtain ⟨l, hl⟩ : ∃ l, st'.2[s]? = some l :=
      ⟨_, List.getElem?_eq_getElem (by rw [hinv'.2.1]; exact hs)⟩
    have hln : l = [] := by
      by_contra hne
      exact hnr (hinv'.2.2.1 s l hl hne)
    rw [hl, hln]

/-- Claim C6, counterexample: compute does not terminate normally on every
timetable and destination; on a one-stop timetable with destination index 5
the initialization indexes the profile array out of range, a panic in the
source (none in the embedding). -/
theorem compute_panics_out_of_range :
    compute ttOne 5 = none ∧ ttOne.stops.length = 1 := by
  refine ⟨by decide, rfl⟩

/-- Witness for the amended claim C6: the no_route timetable with
destination 0. -/
theorem compute_no_failure_unreachable_empty_witness :
    ∃ ps, compute ttNoRoute 0 = some ps ∧
      ps.length = ttNoRoute.stops.length ∧
      ∀ s : Nat, s < ttNoRoute.stops.length → ¬ Reachable ttNoRoute 0 s →
        ps[s]? = some [] :=
  compute_no_failure_unreachable_empty ttNoRoute 0
    (by refine ⟨rfl, ?_, ?_⟩ <;> decide) (by decide)

end CSA
